import Mathlib

/-!
Shallow embedding of the Relational Memory Core (RMC) from
`relational_rnn_general.py`, together with theorems settling the
specification claims about it.  Tensors are modelled as nested lists of
real numbers (batch-major, row-major); the PyTorch operations used by the
source (linear layers, layer normalization, softmax attention, sigmoid
gating, view/permute/split reshaping) are translated operation by
operation.
-/

namespace RMC

/-- Rank-1 tensor: a vector of reals. -/
abbrev Tensor1 := List ℝ

/-- Rank-2 tensor: rows of vectors. -/
abbrev Tensor2 := List (List ℝ)

/-- Rank-3 tensor: batch of matrices, the shape used for memory `[B, N, W]`. -/
abbrev Tensor3 := List (List (List ℝ))

/-- Rank-4 tensor, used inside multi-head attention `[B, H, N, F]`. -/
abbrev Tensor4 := List Tensor3

/-- Second dimension of a rank-3 tensor (`t.shape[1]` in the source). -/
def dim1 (t : Tensor3) : Nat := (t.headD []).length

/-- Third dimension of a rank-3 tensor (`t.shape[2]` in the source). -/
def dim2 (t : Tensor3) : Nat := ((t.headD []).headD []).length

/-- Number of columns of a rank-2 tensor. -/
def dim1m (m : Tensor2) : Nat := (m.headD []).length

/-- Elementwise map over a rank-3 tensor. -/
def map3 (f : ℝ → ℝ) (t : Tensor3) : Tensor3 :=
  t.map (fun m => m.map (fun r => r.map f))

/-- Elementwise `torch.tanh` on a rank-3 tensor. -/
noncomputable def tanh3 : Tensor3 → Tensor3 := map3 Real.tanh

/-- The logistic sigmoid `torch.sigmoid`. -/
noncomputable def sigmoid (x : ℝ) : ℝ := 1 / (1 + Real.exp (-x))

/-- Elementwise sigmoid on a rank-3 tensor. -/
noncomputable def sigmoid3 : Tensor3 → Tensor3 := map3 sigmoid

/-- `F.relu` on one scalar. -/
def relu (x : ℝ) : ℝ := max x 0

/-- Elementwise ReLU on a rank-3 tensor. -/
def relu3 : Tensor3 → Tensor3 := map3 relu

/-- Broadcasting binary operation on vectors: a length-1 operand is
broadcast against the other, otherwise the operation is pointwise
(`torch` broadcasting restricted to the cases exercised by the source). -/
def bop1 (f : ℝ → ℝ → ℝ) (a b : Tensor1) : Tensor1 :=
  if a.length == 1 && b.length != 1 then b.map (fun y => f (a.headD 0) y)
  else if b.length == 1 && a.length != 1 then a.map (fun x => f x (b.headD 0))
  else List.zipWith f a b

/-- Broadcasting binary operation on matrices (broadcast over the row axis
when one side has a single row). -/
def bop2 (f : ℝ → ℝ → ℝ) (a b : Tensor2) : Tensor2 :=
  if a.length == 1 && b.length != 1 then b.map (fun rb => bop1 f (a.headD []) rb)
  else if b.length == 1 && a.length != 1 then a.map (fun ra => bop1 f ra (b.headD []))
  else List.zipWith (bop1 f) a b

/-- Broadcasting binary operation on rank-3 tensors (the batch axes always
agree in the source, the inner axes may broadcast). -/
def bop3 (f : ℝ → ℝ → ℝ) (a b : Tensor3) : Tensor3 := List.zipWith (bop2 f) a b

/-- Broadcasting tensor addition. -/
def bAdd3 : Tensor3 → Tensor3 → Tensor3 := bop3 (· + ·)

/-- Broadcasting tensor (Hadamard) multiplication. -/
def bMul3 : Tensor3 → Tensor3 → Tensor3 := bop3 (· * ·)

/-- Dot product of two vectors (shapes agree at every use site). -/
def dot (x y : Tensor1) : ℝ := (List.zipWith (· * ·) x y).sum

/-- Chunking worker: split a list into consecutive pieces of length `k`,
with an explicit structural fuel. -/
def chunksGo (k : Nat) : Nat → List α → List (List α)
  | _, [] => []
  | 0, _ :: _ => []
  | n + 1, x :: xs => List.take k (x :: xs) :: chunksGo k n (List.drop k (x :: xs))

/-- Split a list into consecutive pieces of length `k` (the semantics of a
`view` that splits one axis into two). -/
def chunkList (k : Nat) (xs : List α) : List (List α) := chunksGo k xs.length xs

/-- Index-driven transposition of the two leading axes of a nested list,
with the number of columns given explicitly (the semantics of
`torch.permute` on adjacent axes, whose extent comes from shape metadata). -/
def transposeN (d : α) (ncols : Nat) (m : List (List α)) : List (List α) :=
  (List.range ncols).map (fun j => m.map (fun r => r.getD j d))

/-- Matrix product: row `i` of the result is the dot product of row `i` of
`A` with each column of `B`. -/
def matmul2 (A B : Tensor2) : Tensor2 :=
  A.map (fun ar => (transposeN (0 : ℝ) (dim1m B) B).map (fun bc => dot ar bc))

/-- Row softmax, `F.softmax(x, dim=-1)` on one row. -/
noncomputable def softmaxRow (r : Tensor1) : Tensor1 :=
  r.map (fun x => Real.exp x / (r.map Real.exp).sum)

/-- An `nn.Linear` layer: a weight matrix of shape `[out_features,
in_features]` and a bias vector of length `out_features`. -/
structure Linear where
  weight : Tensor2
  bias : Tensor1

/-- Apply a linear layer to one vector: `W x + b`. -/
def linApply (l : Linear) (x : Tensor1) : Tensor1 :=
  List.zipWith (fun wr b => dot wr x + b) l.weight l.bias

/-- Shape contract of a linear layer: it produces `outF` output features. -/
def LinOut (l : Linear) (outF : Nat) : Prop :=
  l.weight.length = outF ∧ l.bias.length = outF

/-- An `nn.LayerNorm` over the last two axes: elementwise affine weights of
the normalized shape, plus the numerical-stability epsilon. -/
structure LayerNorm2 where
  gamma : Tensor2
  beta : Tensor2
  eps : ℝ

/-- Entry lookup in a rank-2 tensor with default 0. -/
def at2 (m : Tensor2) (i j : Nat) : ℝ := (m.getD i []).getD j 0

/-- Sum of all entries of a matrix. -/
def sum2 (m : Tensor2) : ℝ := (m.map (fun r => r.sum)).sum

/-- Number of entries of a matrix. -/
def count2 (m : Tensor2) : Nat := (m.map (fun r => r.length)).sum

/-- Map with both indices over a matrix. -/
def mapIdx2 (f : Nat → Nat → ℝ → ℝ) (m : Tensor2) : Tensor2 :=
  m.mapIdx (fun i r => r.mapIdx (f i))

/-- Apply a layer normalization over the last two axes of one batch
element: subtract the mean over all normalized entries, divide by the
epsilon-smoothed standard deviation, then apply the elementwise affine
parameters.  `nn.LayerNorm` additionally rejects inputs whose trailing
dims differ from its normalized shape; this total model agrees with the
layer on conforming inputs, and the theorems about the attention pipeline
are stated on that conforming domain (row count `mem_slots + 1`). -/
noncomputable def lnApply (ln : LayerNorm2) (x : Tensor2) : Tensor2 :=
  let n : ℝ := (count2 x : ℝ)
  let mu := sum2 x / n
  let v := sum2 (x.map (fun r => r.map (fun e => (e - mu) ^ 2))) / n
  mapIdx2 (fun i j e => (e - mu) / Real.sqrt (v + ln.eps) * at2 ln.gamma i j + at2 ln.beta i j) x

/-- A dynamically-ranked tensor as passed across the `create_gates` call
boundary: its shape metadata and flat (row-major) data. -/
structure PyT where
  shape : List Nat
  data : Tensor1

/-- The reshaping `t.view(t.shape[0], -1)`. -/
def view2 (p : PyT) : Tensor2 :=
  chunkList (p.data.length / p.shape.getD 0 0) p.data

/-- The reshaping `t.view(t.shape[0], t.shape[1], -1)`. -/
def view3 (p : PyT) : Tensor3 :=
  let b := p.shape.getD 0 0
  let s := p.shape.getD 1 0
  let per := p.data.length / b
  (chunkList per p.data).map (chunkList (per / s))

/-- View a rank-2 tensor as a dynamically-ranked tensor. -/
def t2ToPyT (t : Tensor2) : PyT :=
  { shape := [t.length, (t.headD []).length], data := t.flatten }

/-- View a rank-3 tensor as a dynamically-ranked tensor. -/
def t3ToPyT (t : Tensor3) : PyT :=
  { shape := [t.length, dim1 t, dim2 t], data := (t.map List.flatten).flatten }

/-- The constructed `RelationalMemory` module: validated configuration
values plus all learned parameters. -/
structure Core where
  mem_slots : Nat
  head_size : Nat
  num_heads : Nat
  input_size : Nat
  num_blocks : Nat
  gate_style : Option String
  attention_mlp_layers : Nat
  key_size : Nat
  forget_bias : ℝ
  input_bias : ℝ
  return_all_outputs : Bool
  qkv_projector : Linear
  qkv_layernorm : LayerNorm2
  attention_mlp : Linear
  attended_memory_layernorm : LayerNorm2
  attended_memory_layernorm2 : LayerNorm2
  input_projector : Linear
  input_gate_projector : Linear
  memory_gate_projector : Linear

/-- Derived size `self.mem_size = head_size * num_heads`. -/
def Core.mem_size (c : Core) : Nat := c.head_size * c.num_heads

/-- Derived size `self.mem_slots_plus_input = mem_slots + 1`. -/
def Core.mem_slots_plus_input (c : Core) : Nat := c.mem_slots + 1

/-- Derived size `self.value_size = head_size`. -/
def Core.value_size (c : Core) : Nat := c.head_size

/-- Derived size `self.qkv_size = 2 * key_size + value_size`. -/
def Core.qkv_size (c : Core) : Nat := 2 * c.key_size + c.value_size

/-- Derived size `self.total_qkv_size = qkv_size * num_heads`. -/
def Core.total_qkv_size (c : Core) : Nat := c.qkv_size * c.num_heads

/-- The method `calculate_gate_size`: per-unit gate width for `unit`
gating, 1 for `memory` gating, 0 with gating disabled. -/
def Core.calculate_gate_size (c : Core) : Nat :=
  if c.gate_style = some "unit" then c.mem_size
  else if c.gate_style = some "memory" then 1
  else 0

/-- Derived size `self.num_gates = 2 * calculate_gate_size()`. -/
def Core.num_gates (c : Core) : Nat := 2 * c.calculate_gate_size

/-- Initialization data for the randomly-initialized linear layers of the
module (index functions standing for the sampled weights). -/
structure InitW where
  qkvW : Nat → Nat → ℝ
  qkvB : Nat → ℝ
  mlpW : Nat → Nat → ℝ
  mlpB : Nat → ℝ
  inW : Nat → Nat → ℝ
  inB : Nat → ℝ
  igW : Nat → Nat → ℝ
  igB : Nat → ℝ
  mgW : Nat → Nat → ℝ
  mgB : Nat → ℝ

/-- Build an `nn.Linear(inF, outF)` from initialization data. -/
def mkLinear (outF inF : Nat) (w : Nat → Nat → ℝ) (b : Nat → ℝ) : Linear :=
  { weight := (List.range outF).map (fun i => (List.range inF).map (w i)),
    bias := (List.range outF).map b }

/-- Build an `nn.LayerNorm([rows, cols])` with its default initialization:
unit weight, zero bias, epsilon `1e-5`. -/
def mkLayerNorm (rows cols : Nat) : LayerNorm2 :=
  { gamma := List.replicate rows (List.replicate cols 1),
    beta := List.replicate rows (List.replicate cols 0),
    eps := 1e-5 }

/-- The constructor `RelationalMemory.__init__`: validates `num_blocks`,
`gate_style` and `attention_mlp_layers`, then assembles the module with
its derived sizes and layers.  `key_size` follows the source's
`key_size if key_size else head_size` (both `None` and 0 are falsy). -/
def mkCore (mem_slots head_size input_size num_heads : Nat) (num_blocks : Int)
    (forget_bias input_bias : ℝ) (gate_style : Option String)
    (attention_mlp_layers : Int) (key_size : Option Nat)
    (return_all_outputs : Bool) (w : InitW) : Except String Core :=
  if num_blocks < 1 then .error "num_blocks must be at least 1"
  else if gate_style ≠ some "unit" ∧ gate_style ≠ some "memory" ∧ gate_style ≠ none then
    .error "gate_style must be unit, memory or disabled"
  else if attention_mlp_layers < 1 then .error "attention_mlp_layers must be at least 1"
  else
    let ks : Nat := match key_size with
      | some (k + 1) => k + 1
      | _ => head_size
    let mem_size := head_size * num_heads
    let value_size := head_size
    let qkv_size := 2 * ks + value_size
    let total_qkv_size := qkv_size * num_heads
    let gate_size : Nat :=
      if gate_style = some "unit" then mem_size
      else if gate_style = some "memory" then 1 else 0
    let num_gates := 2 * gate_size
    .ok
      { mem_slots := mem_slots
        head_size := head_size
        num_heads := num_heads
        input_size := input_size
        num_blocks := num_blocks.toNat
        gate_style := gate_style
        attention_mlp_layers := attention_mlp_layers.toNat
        key_size := ks
        forget_bias := forget_bias
        input_bias := input_bias
        return_all_outputs := return_all_outputs
        qkv_projector := mkLinear total_qkv_size mem_size w.qkvW w.qkvB
        qkv_layernorm := mkLayerNorm (mem_slots + 1) total_qkv_size
        attention_mlp := mkLinear mem_size mem_size w.mlpW w.mlpB
        attended_memory_layernorm := mkLayerNorm (mem_slots + 1) mem_size
        attended_memory_layernorm2 := mkLayerNorm (mem_slots + 1) mem_size
        input_projector := mkLinear mem_size input_size w.inW w.inB
        input_gate_projector := mkLinear num_gates mem_size w.igW w.igB
        memory_gate_projector := mkLinear num_gates mem_size w.mgW w.mgB }

/-- The identity matrix `torch.eye(n)` as a nested list. -/
def eyeL (n : Nat) : Tensor2 :=
  (List.range n).map (fun i => (List.range n).map (fun j => if i = j then (1 : ℝ) else 0))

/-- The method `initial_state`: stack `batch_size` identity matrices, then
zero-pad the trailing dimension when `mem_size > mem_slots` or truncate it
to the first `mem_size` columns when `mem_size < mem_slots`. -/
def initial_state (c : Core) (batch_size : Nat) : Tensor3 :=
  let init := List.replicate batch_size (eyeL c.mem_slots)
  if c.mem_slots < c.mem_size then
    let difference := c.mem_size - c.mem_slots
    List.zipWith (fun m z => List.zipWith (· ++ ·) m z) init
      (List.replicate batch_size
        (List.replicate c.mem_slots (List.replicate difference (0 : ℝ))))
  else if c.mem_size < c.mem_slots then
    init.map (fun m => m.map (List.take c.mem_size))
  else init

/-- Stage of `multihead_attention`: linear QKV projection followed by the
QKV layer normalization (source lines 97-99). -/
noncomputable def mhaQKV (c : Core) (memory : Tensor3) : Tensor3 :=
  (memory.map (fun m => m.map (linApply c.qkv_projector))).map (lnApply c.qkv_layernorm)

/-- Stage of `multihead_attention`: reshape each projected row into
`num_heads` chunks of `qkv_size` and move the head axis in front of the
row axis (source lines 100-104, the `view` plus `permute(0, 2, 1, 3)`). -/
noncomputable def mhaTranspose (c : Core) (memory : Tensor3) : Tensor4 :=
  ((mhaQKV c memory).map (fun m => m.map (chunkList c.qkv_size))).map
    (transposeN ([] : Tensor1) c.num_heads)

/-- Per-head query slice: the first `key_size` features of each row
(source line 107). -/
noncomputable def mhaQ (c : Core) (memory : Tensor3) : Tensor4 :=
  (mhaTranspose c memory).map (fun b => b.map (fun h => h.map (List.take c.key_size)))

/-- Per-head key slice: the next `key_size` features of each row
(source line 107). -/
noncomputable def mhaK (c : Core) (memory : Tensor3) : Tensor4 :=
  (mhaTranspose c memory).map (fun b => b.map (fun h =>
    h.map (fun r => (r.drop c.key_size).take c.key_size)))

/-- Per-head value slice: the last `value_size` features of each row
(source line 107). -/
noncomputable def mhaV (c : Core) (memory : Tensor3) : Tensor4 :=
  (mhaTranspose c memory).map (fun b => b.map (fun h =>
    h.map (fun r => (r.drop (2 * c.key_size)).take c.value_size)))

/-- The query scaling factor `self.key_size ** -0.5` (source line 110). -/
noncomputable def attScale (c : Core) : ℝ := (c.key_size : ℝ) ^ (-(1 / 2 : ℝ))

/-- Multiply every entry of a rank-4 tensor by a scalar. -/
def scale4 (s : ℝ) (t : Tensor4) : Tensor4 :=
  t.map (map3 (fun x => x * s))

/-- The query-key dot products `torch.matmul(q, k.permute(0, 1, 3, 2))`
with the query already scaled by `key_size ** -0.5` (source lines
110-113). -/
noncomputable def mhaDot (c : Core) (memory : Tensor3) : Tensor4 :=
  List.zipWith (fun qb kb => List.zipWith
    (fun qh kh => matmul2 qh (transposeN (0 : ℝ) c.key_size kh)) qb kb)
    (scale4 (attScale c) (mhaQ c memory)) (mhaK c memory)

/-- The attention weights `F.softmax(dot_product, dim=-1)` (source line
114). -/
noncomputable def mhaWeights (c : Core) (memory : Tensor3) : Tensor4 :=
  (mhaDot c memory).map (fun b => b.map (fun h => h.map softmaxRow))

/-- The per-head attention output `torch.matmul(weights, v)` (source line
117). -/
noncomputable def mhaOut (c : Core) (memory : Tensor3) : Tensor4 :=
  List.zipWith (fun wb vb => List.zipWith matmul2 wb vb)
    (mhaWeights c memory) (mhaV c memory)

/-- The method `multihead_attention`: project and normalize to QKV form,
split per head into scaled queries, keys and values, apply row-softmaxed
scaled dot-product attention per head, and merge the heads back into one
feature axis (source lines 95-123). -/
noncomputable def multihead_attention (c : Core) (memory : Tensor3) : Tensor3 :=
  ((mhaOut c memory).map (transposeN ([] : Tensor1) (dim1 memory))).map
    (fun b => b.map List.flatten)

/-- One pass of the shared attention-MLP layer followed by ReLU (the body
of the loop in source lines 189-191; the `ModuleList` replicates a single
`nn.Linear` instance, so every iteration applies the same weights). -/
noncomputable def mlpIter (c : Core) (x : Tensor3) : Tensor3 :=
  relu3 (x.map (fun m => m.map (linApply c.attention_mlp)))

/-- One block of `attend_over_memory`: attention, residual add, layer
normalization, the attention MLP, residual add, second layer
normalization (source lines 181-192). -/
noncomputable def attendBlock (c : Core) (memory : Tensor3) : Tensor3 :=
  let attended_memory := multihead_attention c memory
  let memory2 := (bAdd3 memory attended_memory).map (lnApply c.attended_memory_layernorm)
  let attention_mlp := Nat.iterate (mlpIter c) c.attention_mlp_layers memory2
  (bAdd3 memory2 attention_mlp).map (lnApply c.attended_memory_layernorm2)

/-- The method `attend_over_memory`: apply `attendBlock` `num_blocks`
times (source lines 173-194). -/
noncomputable def attend_over_memory (c : Core) (memory : Tensor3) : Tensor3 :=
  Nat.iterate (attendBlock c) c.num_blocks memory

/-- The arithmetic part of `create_gates`, applied after the shape checks
pass (source lines 152-171); `memory` arrives already squashed by `tanh`.
Flatten the input and project it to gate width, unsqueeze the step axis,
project the memory, add with broadcasting over the slot axis, split the
feature axis evenly into the two gate pre-activations, add the learned
scalar biases and apply the sigmoid. -/
noncomputable def createGatesCalc (c : Core) (inputs : PyT) (memory : Tensor3) :
    Tensor3 × Tensor3 :=
  let inputs2 := view2 inputs
  let gate_inputs := (inputs2.map (linApply c.input_gate_projector)).map (fun r => [r])
  let gate_memory := memory.map (fun m => m.map (linApply c.memory_gate_projector))
  let gates := bAdd3 gate_memory gate_inputs
  let half := dim2 gates / 2
  let input_gate := gates.map (fun m => m.map (List.take half))
  let forget_gate := gates.map (fun m => m.map (fun r => (r.drop half).take half))
  (sigmoid3 (map3 (fun x => x + c.input_bias) input_gate),
   sigmoid3 (map3 (fun x => x + c.forget_bias) forget_gate))

/-- The method `create_gates` (source lines 146-171): squash the memory
with `tanh`, then fail unless the input tensor has exactly 3 axes with a
second axis of length at most 1, and otherwise produce the sigmoid input
and forget gates. -/
noncomputable def create_gates (c : Core) (inputs : PyT) (memory : Tensor3) :
    Except String (Tensor3 × Tensor3) :=
  let memory := tanh3 memory
  if inputs.shape.length = 3 then
    if 1 < inputs.shape.getD 1 0 then
      .error "input seq length is larger than 1"
    else
      .ok (createGatesCalc c inputs memory)
  else
    .error "input shape of create_gate function is 2, expects 3"

/-- Input handling of `forward_step` (source lines 198-209): with
`treat_input_as_matrix` keep the step axis and project each row, without
it flatten to one row per batch element, project, and unsqueeze a
singleton step axis. -/
noncomputable def inputsReshape (c : Core) (inputs : PyT) (timm : Bool) : Tensor3 :=
  if timm then (view3 inputs).map (fun m => m.map (linApply c.input_projector))
  else (view2 inputs).map (fun r => [linApply c.input_projector r])

/-- The slicing `t[:, :-n, :]` on the row axis; for `n = 0` a Python
negative-zero slice selects nothing. -/
def sliceDropLast (n : Nat) (xs : List α) : List α :=
  if n = 0 then [] else xs.take (xs.length - n)

/-- The method `forward_step` (source lines 196-227): project the input,
append it to the memory rows, attend over the augmented memory, cut the
appended rows back off, and, when gating is enabled, blend the attended
memory with the previous memory through the input and forget gates. -/
noncomputable def forward_step (c : Core) (inputs : PyT) (memory : Tensor3)
    (timm : Bool) : Except String (Tensor2 × Tensor3) :=
  let inputs_reshape := inputsReshape c inputs timm
  let memory_plus_input := List.zipWith (· ++ ·) memory inputs_reshape
  let next_memory0 := attend_over_memory c memory_plus_input
  let n := dim1 inputs_reshape
  let next_memory := next_memory0.map (sliceDropLast n)
  if c.gate_style = some "unit" ∨ c.gate_style = some "memory" then
    match create_gates c (t3ToPyT inputs_reshape) memory with
    | .error e => .error e
    | .ok g =>
      let nm := bAdd3 (bMul3 g.1 (tanh3 next_memory)) (bMul3 g.2 memory)
      .ok (nm.map List.flatten, nm)
  else
    .ok (next_memory.map List.flatten, next_memory)

/-- The per-step slice `inputs[:, idx_step]` handed to `forward_step` by
the sequence loop. -/
def selStep (inputs : Tensor3) (t : Nat) : PyT :=
  t2ToPyT (inputs.map (fun seq => seq.getD t []))

/-- Unsqueeze a step axis: `logit.unsqueeze(1)`. -/
def unsqueeze1 (x : Tensor2) : Tensor3 := x.map (fun r => [r])

/-- Concatenate along the step axis, `torch.cat(ts, dim=1)` for a
non-empty list of tensors of equal batch size. -/
def catD : List Tensor3 → Tensor3
  | [] => []
  | [x] => x
  | x :: xs => List.zipWith (· ++ ·) x (catD xs)

/-- The loop body of `forward` (source lines 233-235): process the listed
step indices in order, accumulating unsqueezed per-step outputs, the last
output, and the threaded memory. -/
noncomputable def forwardLoop (c : Core) (inputs : Tensor3) :
    List Nat → List Tensor3 → Tensor2 → Tensor3 →
    Except String (List Tensor3 × Tensor2 × Tensor3)
  | [], logits, logit, memory => .ok (logits, logit, memory)
  | t :: ts, logits, _, memory =>
    match forward_step c (selStep inputs t) memory false with
    | .error e => .error e
    | .ok r => forwardLoop c inputs ts (logits ++ [unsqueeze1 r.1]) r.1 r.2

/-- The method `forward` (source lines 229-241): run `forward_step` once
per sequence position in order (always with the default vector input
handling), concatenate the collected outputs along the step axis (which
fails on an empty sequence, as `torch.cat` does), and return either all
stacked outputs or only the final one, together with the final memory. -/
noncomputable def forward (c : Core) (inputs memory : Tensor3) (timm : Bool) :
    Except String (Tensor3 × Tensor3) :=
  match forwardLoop c inputs (List.range (dim1 inputs)) [] [] memory with
  | .error e => .error e
  | .ok (logits, logit, memory2) =>
    if logits.isEmpty then .error "expected a non-empty list of tensors"
    else if c.return_all_outputs then .ok (catD logits, memory2)
    else .ok (unsqueeze1 logit, memory2)

/-- Entry lookup in a rank-3 tensor with default 0. -/
def at3 (t : Tensor3) (b i j : Nat) : ℝ := ((t.getD b []).getD i []).getD j 0

/-- Decidable shape check for a rank-3 tensor. -/
def shape3b (t : Tensor3) (B N W : Nat) : Bool :=
  t.length == B && t.all (fun m => m.length == N && m.all (fun r => r.length == W))

/-- Zipping two replicated lists replicates the combined element. -/
theorem zipWith_replicate_same (f : α → β → γ) (n : Nat) (a : α) (b : β) :
    List.zipWith f (List.replicate n a) (List.replicate n b) =
      List.replicate n (f a b) := by
  induction n with
  | zero => rfl
  | succ n ih => simp [List.replicate_succ, ih]

/-- The single batch element that `initial_state` replicates. -/
def initMat (c : Core) : Tensor2 :=
  if c.mem_slots < c.mem_size then
    List.zipWith (· ++ ·) (eyeL c.mem_slots)
      (List.replicate c.mem_slots (List.replicate (c.mem_size - c.mem_slots) (0 : ℝ)))
  else if c.mem_size < c.mem_slots then
    (eyeL c.mem_slots).map (List.take c.mem_size)
  else eyeL c.mem_slots

/-- The initial state is a batch of identical copies of `initMat`. -/
theorem initial_state_eq_replicate (c : Core) (B : Nat) :
    initial_state c B = List.replicate B (initMat c) := by
  unfold initial_state initMat
  split_ifs with h1 h2
  · exact zipWith_replicate_same _ _ _ _
  · rw [List.map_replicate]
  · rfl

/-- Indexing a replicated list below its length yields the element. -/
theorem getD_replicate_of_lt (n : Nat) (a d : α) (i : Nat) (h : i < n) :
    (List.replicate n a).getD i d = a := by
  rw [List.getD_eq_getElem _ _ (by simpa using h), List.getElem_replicate]

/-- Length of an identity-matrix row list. -/
theorem eyeL_length (n : Nat) : (eyeL n).length = n := by
  simp [eyeL]

/-- Number of rows of `initMat`. -/
theorem initMat_length (c : Core) : (initMat c).length = c.mem_slots := by
  unfold initMat
  split_ifs <;> simp [eyeL_length]

/-- Each row of `initMat` has `mem_size` entries. -/
theorem initMat_row_length (c : Core) (i : Nat) (h : i < c.mem_slots) :
    ((initMat c).getD i []).length = c.mem_size := by
  have hi : i < (initMat c).length := by rwa [initMat_length]
  rw [List.getD_eq_getElem _ _ hi]
  unfold initMat at hi ⊢
  split_ifs at hi ⊢ with h1 h2
  · rw [List.getElem_zipWith]
    simp [eyeL]
    omega
  · rw [List.getElem_map]
    simp [eyeL]
    omega
  · simp [eyeL]
    omega

/-- Entries of `initMat` are those of the identity, zero-padded or
truncated on the column axis. -/
theorem initMat_entry (c : Core) (i j : Nat) (hi : i < c.mem_slots)
    (hj : j < c.mem_size) :
    ((initMat c).getD i []).getD j 0 = if i = j then (1 : ℝ) else 0 := by
  have hlen : i < (initMat c).length := by rwa [initMat_length]
  rw [List.getD_eq_getElem _ _ hlen]
  unfold initMat at hlen ⊢
  split_ifs at hlen ⊢ with h1 h2
  · rw [List.getElem_zipWith]
    simp only [eyeL, List.getElem_map, List.getElem_range, List.getElem_replicate]
    by_cases hjn : j < c.mem_slots
    · rw [List.getD_append _ _ _ _ (by simpa using hjn)]
      rw [List.getD_eq_getElem _ _ (by simpa using hjn)]
      simp
    · rw [List.getD_append_right _ _ _ _ (by simpa using Nat.le_of_not_lt hjn)]
      have hne : i ≠ j := by omega
      rw [getD_replicate_of_lt _ _ _ _ (by simp at hjn ⊢; omega)]
      simp [hne]
  · rw [List.getElem_map]
    simp only [eyeL, List.getElem_map, List.getElem_range]
    rw [List.getD_eq_getElem _ _ (by simp; omega)]
    simp
  · simp only [eyeL, List.getElem_map, List.getElem_range]
    rw [List.getD_eq_getElem _ _ (by simp; omega)]
    simp

/-- C2: for every batch size `B ≥ 1`, `initial_state` returns `B`
identical copies of one matrix of shape `[mem_slots, mem_size]` whose
entries are those of the `mem_slots × mem_slots` identity, zero-padded on
the trailing dimension when `mem_size > mem_slots` and truncated to the
first `mem_size` columns when `mem_size < mem_slots`. -/
theorem initial_state_spec (c : Core) (B : Nat) (hB : 1 ≤ B) :
    shape3b (initial_state c B) B c.mem_slots c.mem_size = true ∧
    (∀ b, b < B → (initial_state c B).getD b [] = (initial_state c B).getD 0 []) ∧
    (∀ b i j, b < B → i < c.mem_slots → j < c.mem_size →
      at3 (initial_state c B) b i j = if i = j then 1 else 0) := by
  rw [initial_state_eq_replicate]
  refine ⟨?_, ?_, ?_⟩
  · simp only [shape3b, List.all_eq_true, Bool.and_eq_true, beq_iff_eq]
    refine ⟨by simp, ?_⟩
    intro m hm
    rw [List.eq_of_mem_replicate hm]
    refine ⟨initMat_length c, ?_⟩
    intro r hr
    rcases List.mem_iff_getElem.mp hr with ⟨i, hilt, hieq⟩
    have hi : i < c.mem_slots := by
      rwa [initMat_length] at hilt
    have hrl := initMat_row_length c i hi
    rw [List.getD_eq_getElem _ _ hilt, hieq] at hrl
    exact hrl
  · intro b hb
    rw [getD_replicate_of_lt _ _ _ _ hb, getD_replicate_of_lt _ _ _ _ hB]
  · intro b i j hb hi hj
    unfold at3
    rw [getD_replicate_of_lt _ _ _ _ hb]
    exact initMat_entry c i j hi hj

/-- C2 witness: a concrete core with `mem_slots = 2`, `mem_size = 3`. -/
noncomputable def coreW2 : Core where
  mem_slots := 2
  head_size := 3
  num_heads := 1
  input_size := 2
  num_blocks := 1
  gate_style := some "unit"
  attention_mlp_layers := 2
  key_size := 3
  forget_bias := 1
  input_bias := 0
  return_all_outputs := false
  qkv_projector := mkLinear 9 3 (fun _ _ => 0) (fun _ => 0)
  qkv_layernorm := mkLayerNorm 3 9
  attention_mlp := mkLinear 3 3 (fun _ _ => 0) (fun _ => 0)
  attended_memory_layernorm := mkLayerNorm 3 3
  attended_memory_layernorm2 := mkLayerNorm 3 3
  input_projector := mkLinear 3 2 (fun _ _ => 0) (fun _ => 0)
  input_gate_projector := mkLinear 6 3 (fun _ _ => 0) (fun _ => 0)
  memory_gate_projector := mkLinear 6 3 (fun _ _ => 0) (fun _ => 0)

/-- Witness for C2: the theorem applied to a concrete core and batch size. -/
theorem initial_state_spec_witness :
    1 ≤ 2 ∧
    (shape3b (initial_state coreW2 2) 2 coreW2.mem_slots coreW2.mem_size = true ∧
    (∀ b, b < 2 → (initial_state coreW2 2).getD b [] = (initial_state coreW2 2).getD 0 []) ∧
    (∀ b i j, b < 2 → i < coreW2.mem_slots → j < coreW2.mem_size →
      at3 (initial_state coreW2 2) b i j = if i = j then 1 else 0)) :=
  ⟨by decide, initial_state_spec coreW2 2 (by decide)⟩

/-- C10: `forward` never forwards its `treat_input_as_matrix` argument to
`forward_step`, so its result is independent of that argument. -/
theorem forward_matrix_flag_irrelevant (c : Core) (inputs memory : Tensor3)
    (b1 b2 : Bool) :
    forward c inputs memory b1 = forward c inputs memory b2 := rfl

/-- C4: construction fails exactly when `num_blocks < 1`, or `gate_style`
is outside `{unit, memory, disabled}`, or the attention-MLP layer count is
less than 1; otherwise it succeeds. -/
theorem mkCore_error_iff (ms hs is nh : Nat) (nb : Int) (fb ib : ℝ)
    (gs : Option String) (aml : Int) (ks : Option Nat) (rao : Bool) (w : InitW) :
    (∃ e, mkCore ms hs is nh nb fb ib gs aml ks rao w = .error e) ↔
      (nb < 1 ∨ (gs ≠ some "unit" ∧ gs ≠ some "memory" ∧ gs ≠ none) ∨ aml < 1) := by
  unfold mkCore
  split_ifs with h1 h2 h3 <;> simp_all

/-- C5: `create_gates` fails exactly when its input does not have 3 axes
or its second axis length exceeds 1; for shape `[batch, 1, feature]` it
returns the two gates without error. -/
theorem create_gates_error_iff (c : Core) (inputs : PyT) (memory : Tensor3) :
    (∃ e, create_gates c inputs memory = .error e) ↔
      (inputs.shape.length ≠ 3 ∨ 1 < inputs.shape.getD 1 0) := by
  unfold create_gates
  split_ifs with h1 h2 <;> simp_all

/-- C8: with gating disabled, `forward_step` returns the attended memory
truncated back to the slot rows, unchanged (no gate blending), and emits
that memory flattened. -/
theorem forward_step_no_gating (c : Core) (inputs : PyT) (memory : Tensor3)
    (timm : Bool) (h : c.gate_style = none) :
    forward_step c inputs memory timm =
      .ok (((attend_over_memory c
          (List.zipWith (· ++ ·) memory (inputsReshape c inputs timm))).map
            (sliceDropLast (dim1 (inputsReshape c inputs timm)))).map List.flatten,
        (attend_over_memory c
          (List.zipWith (· ++ ·) memory (inputsReshape c inputs timm))).map
            (sliceDropLast (dim1 (inputsReshape c inputs timm)))) := by
  unfold forward_step
  rw [h]
  simp

/-- Concrete core with gating disabled, for the C8 witness. -/
noncomputable def coreW8 : Core where
  mem_slots := 1
  head_size := 1
  num_heads := 1
  input_size := 1
  num_blocks := 1
  gate_style := none
  attention_mlp_layers := 1
  key_size := 1
  forget_bias := 1
  input_bias := 0
  return_all_outputs := false
  qkv_projector := mkLinear 3 1 (fun _ _ => 0) (fun _ => 0)
  qkv_layernorm := mkLayerNorm 2 3
  attention_mlp := mkLinear 1 1 (fun _ _ => 0) (fun _ => 0)
  attended_memory_layernorm := mkLayerNorm 2 1
  attended_memory_layernorm2 := mkLayerNorm 2 1
  input_projector := mkLinear 1 1 (fun _ _ => 0) (fun _ => 0)
  input_gate_projector := mkLinear 0 1 (fun _ _ => 0) (fun _ => 0)
  memory_gate_projector := mkLinear 0 1 (fun _ _ => 0) (fun _ => 0)

/-- Concrete one-step input for witnesses. -/
def inpW8 : PyT := { shape := [1, 1], data := [0] }

/-- Concrete one-slot memory for witnesses. -/
def memW8 : Tensor3 := [[[0]]]

/-- Witness for C8: the theorem applied at a concrete disabled-gating
core, input and memory. -/
theorem forward_step_no_gating_witness :
    coreW8.gate_style = none ∧
    forward_step coreW8 inpW8 memW8 false =
      .ok (((attend_over_memory coreW8
          (List.zipWith (· ++ ·) memW8 (inputsReshape coreW8 inpW8 false))).map
            (sliceDropLast (dim1 (inputsReshape coreW8 inpW8 false)))).map List.flatten,
        (attend_over_memory coreW8
          (List.zipWith (· ++ ·) memW8 (inputsReshape coreW8 inpW8 false))).map
            (sliceDropLast (dim1 (inputsReshape coreW8 inpW8 false)))) :=
  ⟨rfl, forward_step_no_gating coreW8 inpW8 memW8 false rfl⟩

/-- C1: with gating enabled, `forward_step` computes its gates from the
projected input and the pre-attention memory, and returns
`input_gate * tanh(truncated attended memory) + forget_gate * previous
memory` as the next memory (also emitted flattened). -/
theorem forward_step_gating (c : Core) (inputs : PyT) (memory : Tensor3)
    (timm : Bool) (g : Tensor3 × Tensor3)
    (hg : c.gate_style = some "unit" ∨ c.gate_style = some "memory")
    (hok : create_gates c (t3ToPyT (inputsReshape c inputs timm)) memory = .ok g) :
    forward_step c inputs memory timm =
      .ok ((bAdd3 (bMul3 g.1 (tanh3 ((attend_over_memory c
            (List.zipWith (· ++ ·) memory (inputsReshape c inputs timm))).map
              (sliceDropLast (dim1 (inputsReshape c inputs timm))))))
          (bMul3 g.2 memory)).map List.flatten,
        bAdd3 (bMul3 g.1 (tanh3 ((attend_over_memory c
            (List.zipWith (· ++ ·) memory (inputsReshape c inputs timm))).map
              (sliceDropLast (dim1 (inputsReshape c inputs timm))))))
          (bMul3 g.2 memory)) := by
  unfold forward_step
  rw [if_pos hg, hok]

/-- Concrete unit-gating core for the C1 witness. -/
noncomputable def coreW1 : Core where
  mem_slots := 1
  head_size := 1
  num_heads := 1
  input_size := 1
  num_blocks := 1
  gate_style := some "unit"
  attention_mlp_layers := 1
  key_size := 1
  forget_bias := 1
  input_bias := 0
  return_all_outputs := false
  qkv_projector := mkLinear 3 1 (fun _ _ => 0) (fun _ => 0)
  qkv_layernorm := mkLayerNorm 2 3
  attention_mlp := mkLinear 1 1 (fun _ _ => 0) (fun _ => 0)
  attended_memory_layernorm := mkLayerNorm 2 1
  attended_memory_layernorm2 := mkLayerNorm 2 1
  input_projector := mkLinear 1 1 (fun _ _ => 0) (fun _ => 0)
  input_gate_projector := mkLinear 2 1 (fun _ _ => 0) (fun _ => 0)
  memory_gate_projector := mkLinear 2 1 (fun _ _ => 0) (fun _ => 0)

/-- Concrete one-step input for the C1 witness. -/
def inpW1 : PyT := { shape := [1, 1], data := [0] }

/-- Concrete memory for the C1 witness. -/
def memW1 : Tensor3 := [[[0]]]

/-- The gate pair `create_gates` produces at the C1 witness input. -/
noncomputable def gW1 : Tensor3 × Tensor3 :=
  (create_gates coreW1 (t3ToPyT (inputsReshape coreW1 inpW1 false)) memW1).toOption.getD ([], [])

/-- Witness for C1: the theorem applied at a concrete unit-gating core,
input and memory. -/
theorem forward_step_gating_witness :
    (coreW1.gate_style = some "unit" ∨ coreW1.gate_style = some "memory") ∧
    create_gates coreW1 (t3ToPyT (inputsReshape coreW1 inpW1 false)) memW1 = .ok gW1 ∧
    forward_step coreW1 inpW1 memW1 false =
      .ok ((bAdd3 (bMul3 gW1.1 (tanh3 ((attend_over_memory coreW1
            (List.zipWith (· ++ ·) memW1 (inputsReshape coreW1 inpW1 false))).map
              (sliceDropLast (dim1 (inputsReshape coreW1 inpW1 false))))))
          (bMul3 gW1.2 memW1)).map List.flatten,
        bAdd3 (bMul3 gW1.1 (tanh3 ((attend_over_memory coreW1
            (List.zipWith (· ++ ·) memW1 (inputsReshape coreW1 inpW1 false))).map
              (sliceDropLast (dim1 (inputsReshape coreW1 inpW1 false))))))
          (bMul3 gW1.2 memW1)) :=
  ⟨Or.inl rfl, rfl, forward_step_gating coreW1 inpW1 memW1 false gW1 (Or.inl rfl) rfl⟩

/-- Every entry of a rank-3 tensor lies strictly between 0 and 1. -/
def inOpen01 (t : Tensor3) : Prop := ∀ m ∈ t, ∀ r ∈ m, ∀ x ∈ r, 0 < x ∧ x < 1

/-- The sigmoid maps every real into the open unit interval. -/
theorem sigmoid_pos_lt_one (x : ℝ) : 0 < sigmoid x ∧ sigmoid x < 1 := by
  unfold sigmoid
  have hex := Real.exp_pos (-x)
  constructor
  · apply div_pos one_pos
    linarith
  · rw [div_lt_one (by linarith)]
    linarith

/-- Every entry of an elementwise sigmoid image lies in `(0, 1)`. -/
theorem inOpen01_sigmoid3 (t : Tensor3) : inOpen01 (sigmoid3 t) := by
  intro m hm r hr x hx
  unfold sigmoid3 map3 at hm
  rcases List.mem_map.mp hm with ⟨m0, _, hm0⟩
  subst hm0
  rcases List.mem_map.mp hr with ⟨r0, _, hr0⟩
  subst hr0
  rcases List.mem_map.mp hx with ⟨x0, _, hx0⟩
  subst hx0
  exact sigmoid_pos_lt_one x0

/-- C9: whenever `create_gates` succeeds, both returned gate tensors have
every entry strictly inside `(0, 1)`, being sigmoids of biased
pre-activations. -/
theorem create_gates_range (c : Core) (inputs : PyT) (memory : Tensor3)
    (g : Tensor3 × Tensor3) (h : create_gates c inputs memory = .ok g) :
    inOpen01 g.1 ∧ inOpen01 g.2 := by
  simp only [create_gates] at h
  by_cases h1 : inputs.shape.length = 3
  · rw [if_pos h1] at h
    by_cases h2 : 1 < inputs.shape.getD 1 0
    · rw [if_pos h2] at h
      cases h
    · rw [if_neg h2] at h
      rw [Except.ok.injEq] at h
      subst h
      exact ⟨inOpen01_sigmoid3 _, inOpen01_sigmoid3 _⟩
  · rw [if_neg h1] at h
    cases h

/-- Concrete memory-gating core for the C9 witness. -/
noncomputable def coreW9 : Core where
  mem_slots := 1
  head_size := 1
  num_heads := 1
  input_size := 1
  num_blocks := 1
  gate_style := some "memory"
  attention_mlp_layers := 1
  key_size := 1
  forget_bias := 1
  input_bias := 0
  return_all_outputs := false
  qkv_projector := mkLinear 3 1 (fun _ _ => 0) (fun _ => 0)
  qkv_layernorm := mkLayerNorm 2 3
  attention_mlp := mkLinear 1 1 (fun _ _ => 0) (fun _ => 0)
  attended_memory_layernorm := mkLayerNorm 2 1
  attended_memory_layernorm2 := mkLayerNorm 2 1
  input_projector := mkLinear 1 1 (fun _ _ => 0) (fun _ => 0)
  input_gate_projector := mkLinear 2 1 (fun _ _ => 1) (fun _ => 0)
  memory_gate_projector := mkLinear 2 1 (fun _ _ => 1) (fun _ => 0)

/-- Concrete rank-3 input for the C9 witness. -/
def inpW9 : PyT := { shape := [1, 1, 1], data := [2] }

/-- Concrete memory for the C9 witness. -/
def memW9 : Tensor3 := [[[3]]]

/-- The gate pair produced at the C9 witness input. -/
noncomputable def gW9 : Tensor3 × Tensor3 :=
  (create_gates coreW9 inpW9 memW9).toOption.getD ([], [])

/-- Witness for C9: the theorem applied at a concrete core, input and
memory where `create_gates` succeeds. -/
theorem create_gates_range_witness :
    create_gates coreW9 inpW9 memW9 = .ok gW9 ∧
    inOpen01 gW9.1 ∧ inOpen01 gW9.2 :=
  ⟨rfl, create_gates_range coreW9 inpW9 memW9 gW9 rfl⟩

/-- Helper: `create_gates` succeeds whenever its shape contract holds. -/
theorem create_gates_ok (c : Core) (inputs : PyT) (memory : Tensor3)
    (h3 : inputs.shape.length = 3) (hle : ¬ 1 < inputs.shape.getD 1 0) :
    create_gates c inputs memory = .ok (createGatesCalc c inputs (tanh3 memory)) := by
  simp only [create_gates]
  rw [if_pos h3, if_neg hle]

/-- Helper: without matrix input handling the reshaped input always has a
step axis of length at most 1. -/
theorem dim1_inputsReshape_false (c : Core) (x : PyT) :
    dim1 (inputsReshape c x false) ≤ 1 := by
  unfold inputsReshape dim1
  cases h : view2 x with
  | nil => simp [h]
  | cons r rs => simp [h]

/-- The (always defined) result of a default-mode `forward_step`. -/
noncomputable def stepOutMem (c : Core) (x : PyT) (m : Tensor3) : Tensor2 × Tensor3 :=
  (forward_step c x m false).toOption.getD ([], m)

/-- A default-mode `forward_step` never fails: its gate computation always
receives a rank-3 input with singleton step axis. -/
theorem forward_step_false_eq (c : Core) (x : PyT) (m : Tensor3) :
    forward_step c x m false = .ok (stepOutMem c x m) := by
  have hok : ∃ r, forward_step c x m false = .ok r := by
    unfold forward_step
    by_cases hg : c.gate_style = some "unit" ∨ c.gate_style = some "memory"
    · rw [if_pos hg, create_gates_ok c (t3ToPyT (inputsReshape c x false)) m rfl (by
        show ¬ 1 < dim1 (inputsReshape c x false)
        exact Nat.not_lt.mpr (dim1_inputsReshape_false c x))]
      exact ⟨_, rfl⟩
    · rw [if_neg hg]
      exact ⟨_, rfl⟩
  obtain ⟨r, hr⟩ := hok
  rw [hr]
  unfold stepOutMem
  rw [hr]
  rfl

/-- Memory threaded through the listed step indices in order, each step
feeding `forward_step` the memory produced by the previous step. -/
noncomputable def runSteps (c : Core) (inputs : Tensor3) : Tensor3 → List Nat → Tensor3
  | m, [] => m
  | m, t :: ts => runSteps c inputs (stepOutMem c (selStep inputs t) m).2 ts

/-- Per-step outputs collected along the same threaded run. -/
noncomputable def outsSteps (c : Core) (inputs : Tensor3) : Tensor3 → List Nat → List Tensor2
  | _, [] => []
  | m, t :: ts => (stepOutMem c (selStep inputs t) m).1 ::
      outsSteps c inputs (stepOutMem c (selStep inputs t) m).2 ts

/-- One output is collected per processed step index. -/
theorem outsSteps_length (c : Core) (inputs : Tensor3) (ts : List Nat) :
    ∀ m, (outsSteps c inputs m ts).length = ts.length := by
  induction ts with
  | nil => intro m; rfl
  | cons t ts ih => intro m; simp [outsSteps, ih]

/-- The body of `forward` is the threaded fold of `forward_step` over the
step indices: it accumulates one unsqueezed output per step, keeps the
last output, and carries the threaded memory. -/
theorem forwardLoop_eq (c : Core) (inputs : Tensor3) (ts : List Nat) :
    ∀ logits logit memory,
      forwardLoop c inputs ts logits logit memory =
        .ok (logits ++ (outsSteps c inputs memory ts).map unsqueeze1,
          (outsSteps c inputs memory ts).getLastD logit,
          runSteps c inputs memory ts) := by
  induction ts with
  | nil =>
    intro logits logit memory
    simp [forwardLoop, outsSteps, runSteps]
  | cons t ts ih =>
    intro logits logit memory
    rw [forwardLoop, forward_step_false_eq]
    simp only []
    rw [ih]
    simp [outsSteps, runSteps, List.getLastD_cons, -List.getLastD_eq_getLast?]

/-- Cores differing only in `return_all_outputs` take identical steps. -/
theorem stepOutMem_rao (c : Core) (b : Bool) (x : PyT) (m : Tensor3) :
    stepOutMem { c with return_all_outputs := b } x m = stepOutMem c x m := rfl

/-- The threaded memory ignores `return_all_outputs`. -/
theorem runSteps_rao (c : Core) (b : Bool) (inputs : Tensor3) (ts : List Nat) :
    ∀ m, runSteps { c with return_all_outputs := b } inputs m ts = runSteps c inputs m ts := by
  induction ts with
  | nil => intro m; rfl
  | cons t ts ih => intro m; rw [runSteps, runSteps, stepOutMem_rao, ih]

/-- The per-step outputs ignore `return_all_outputs`. -/
theorem outsSteps_rao (c : Core) (b : Bool) (inputs : Tensor3) (ts : List Nat) :
    ∀ m, outsSteps { c with return_all_outputs := b } inputs m ts = outsSteps c inputs m ts := by
  induction ts with
  | nil => intro m; rfl
  | cons t ts ih => intro m; rw [outsSteps, outsSteps, stepOutMem_rao, ih]

/-- C3: over a sequence of length `T ≥ 1`, `forward` threads the memory
through one `forward_step` per position in order; it returns the `T`
stacked per-step outputs when configured to return all outputs and
exactly the final step's single output otherwise, with the same final
memory in both configurations. -/
theorem forward_spec (c : Core) (inputs memory : Tensor3) (timm : Bool)
    (hT : 1 ≤ dim1 inputs) :
    (∀ b : Bool,
      forward { c with return_all_outputs := b } inputs memory timm =
        .ok ((if b then
            catD ((outsSteps c inputs memory (List.range (dim1 inputs))).map unsqueeze1)
          else
            unsqueeze1 ((outsSteps c inputs memory (List.range (dim1 inputs))).getLastD [])),
          runSteps c inputs memory (List.range (dim1 inputs)))) ∧
    (outsSteps c inputs memory (List.range (dim1 inputs))).length = dim1 inputs := by
  constructor
  · intro b
    unfold forward
    rw [forwardLoop_eq]
    rw [runSteps_rao, outsSteps_rao]
    cases houts : outsSteps c inputs memory (List.range (dim1 inputs)) with
    | nil =>
      exfalso
      have hl := outsSteps_length c inputs (List.range (dim1 inputs)) memory
      rw [houts] at hl
      simp at hl
      omega
    | cons o os =>
      simp only [houts, List.map_cons, List.nil_append, List.isEmpty_cons,
        List.getLastD_cons, Bool.false_eq_true, if_false]
      cases b <;> simp
  · rw [outsSteps_length c inputs (List.range (dim1 inputs)) memory]
    simp

/-- Concrete core for the C3 witness. -/
noncomputable def coreW3 : Core where
  mem_slots := 1
  head_size := 1
  num_heads := 1
  input_size := 1
  num_blocks := 1
  gate_style := some "unit"
  attention_mlp_layers := 1
  key_size := 1
  forget_bias := 1
  input_bias := 0
  return_all_outputs := false
  qkv_projector := mkLinear 3 1 (fun _ _ => 0) (fun _ => 0)
  qkv_layernorm := mkLayerNorm 2 3
  attention_mlp := mkLinear 1 1 (fun _ _ => 0) (fun _ => 0)
  attended_memory_layernorm := mkLayerNorm 2 1
  attended_memory_layernorm2 := mkLayerNorm 2 1
  input_projector := mkLinear 1 1 (fun _ _ => 0) (fun _ => 0)
  input_gate_projector := mkLinear 2 1 (fun _ _ => 0) (fun _ => 0)
  memory_gate_projector := mkLinear 2 1 (fun _ _ => 0) (fun _ => 0)

/-- Concrete two-step input sequence for the C3 witness. -/
def inputsW3 : Tensor3 := [[[1], [2]]]

/-- Concrete memory for the C3 witness. -/
def memW3 : Tensor3 := [[[0]]]

/-- Witness for C3: the theorem applied at a concrete core, length-2 input
sequence and memory. -/
theorem forward_spec_witness :
    1 ≤ dim1 inputsW3 ∧
    ((∀ b : Bool,
      forward { coreW3 with return_all_outputs := b } inputsW3 memW3 false =
        .ok ((if b then
            catD ((outsSteps coreW3 inputsW3 memW3 (List.range (dim1 inputsW3))).map unsqueeze1)
          else
            unsqueeze1 ((outsSteps coreW3 inputsW3 memW3 (List.range (dim1 inputsW3))).getLastD [])),
          runSteps coreW3 inputsW3 memW3 (List.range (dim1 inputsW3)))) ∧
    (outsSteps coreW3 inputsW3 memW3 (List.range (dim1 inputsW3))).length = dim1 inputsW3) :=
  ⟨by decide, forward_spec coreW3 inputsW3 memW3 false (by decide)⟩

/-- Shape predicate for a matrix: `N` rows of width `W`. -/
def rows2 (m : Tensor2) (N W : Nat) : Prop := m.length = N ∧ ∀ r ∈ m, r.length = W

/-- Shape predicate for a rank-3 tensor. -/
def cube3 (t : Tensor3) (B N W : Nat) : Prop := t.length = B ∧ ∀ m ∈ t, rows2 m N W

/-- Shape predicate for a rank-4 tensor. -/
def cube4 (t : Tensor4) (B H N F : Nat) : Prop :=
  t.length = B ∧ ∀ b ∈ t, b.length = H ∧ ∀ h ∈ b, rows2 h N F

/-- The decidable shape check agrees with the propositional one. -/
theorem shape3b_iff (t : Tensor3) (B N W : Nat) :
    shape3b t B N W = true ↔ cube3 t B N W := by
  simp [shape3b, cube3, rows2, List.all_eq_true]

/-- Membership at an in-range default lookup. -/
theorem getD_mem {r : List α} {j : Nat} {d : α} (h : j < r.length) : r.getD j d ∈ r := by
  rw [List.getD_eq_getElem _ _ h]
  exact List.getElem_mem h

/-- Linear layers produce `outF` entries whatever their input. -/
theorem linApply_length (l : Linear) (F : Nat) (h : LinOut l F) (x : Tensor1) :
    (linApply l x).length = F := by
  unfold linApply
  rw [List.length_zipWith, h.1, h.2, Nat.min_self]

/-- Layer normalization preserves the shape of its input. -/
theorem lnApply_rows (ln : LayerNorm2) (x : Tensor2) {N W : Nat} (h : rows2 x N W) :
    rows2 (lnApply ln x) N W := by
  obtain ⟨hN, hW⟩ := h
  constructor
  · simp [lnApply, mapIdx2, hN]
  · intro r hr
    simp only [lnApply, mapIdx2] at hr
    rcases List.exists_of_mem_mapIdx hr with ⟨i, hi, hEq⟩
    rw [← hEq]
    simp only [List.length_mapIdx]
    exact hW _ (List.getElem_mem hi)

/-- Chunking a list of length `H * k` yields `H` chunks of length `k`. -/
theorem chunksGo_spec {k : Nat} (hk : 1 ≤ k) :
    ∀ (H n : Nat) (xs : List α), xs.length = H * k → xs.length ≤ n →
      (chunksGo k n xs).length = H ∧ ∀ ch ∈ chunksGo k n xs, ch.length = k := by
  intro H
  induction H with
  | zero =>
    intro n xs hlen hn
    have hx : xs = [] := List.eq_nil_of_length_eq_zero (by simpa using hlen)
    subst hx
    cases n <;> simp [chunksGo]
  | succ H ih =>
    intro n xs hlen hn
    cases xs with
    | nil =>
      exfalso
      simp only [List.length_nil] at hlen
      rcases Nat.mul_eq_zero.mp hlen.symm with h0 | h0 <;> omega
    | cons x xs2 =>
      cases n with
      | zero => simp at hn
      | succ n =>
        have hsm : (H + 1) * k = H * k + k := Nat.succ_mul H k
        have hlen2 : (List.drop k (x :: xs2)).length = H * k := by
          rw [List.length_drop]
          omega
        have hle2 : (List.drop k (x :: xs2)).length ≤ n := by
          rw [List.length_drop]
          simp only [List.length_cons] at hn ⊢
          omega
        obtain ⟨ihl, ihm⟩ := ih n (List.drop k (x :: xs2)) hlen2 hle2
        rw [chunksGo]
        constructor
        · simp [ihl]
        · intro ch hch
          rcases List.mem_cons.mp hch with rfl | hch2
          · rw [List.length_take]
            omega
          · exact ihm ch hch2

/-- Shape of `chunkList` on an exactly divisible list. -/
theorem chunkList_spec {k : Nat} (hk : 1 ≤ k) {H : Nat} (xs : List α)
    (hlen : xs.length = H * k) :
    (chunkList k xs).length = H ∧ ∀ ch ∈ chunkList k xs, ch.length = k :=
  chunksGo_spec hk H xs.length xs hlen (Nat.le_refl _)

/-- The explicit transposition has exactly `n` rows. -/
theorem transposeN_length (d : α) (n : Nat) (m : List (List α)) :
    (transposeN d n m).length = n := by
  simp [transposeN]

/-- Rows of the explicit transposition are column selections. -/
theorem transposeN_mem {d : α} {n : Nat} {m : List (List α)} {row : List α}
    (h : row ∈ transposeN d n m) :
    ∃ j, j < n ∧ row = m.map (fun r => r.getD j d) := by
  unfold transposeN at h
  rcases List.mem_map.mp h with ⟨j, hj, hEq⟩
  exact ⟨j, List.mem_range.mp hj, hEq.symm⟩

/-- Number of columns of a nonempty transposition. -/
theorem dim1m_transposeN (d : ℝ) {n : Nat} (m : Tensor2) (hn : 1 ≤ n) :
    dim1m (transposeN d n m) = m.length := by
  unfold transposeN dim1m
  cases n with
  | zero => omega
  | succ nn =>
    rw [List.range_succ_eq_map]
    simp

/-- Number of columns of a matrix with known row shape. -/
theorem dim1m_of_rows2 {v : Tensor2} {N V : Nat} (h : rows2 v N V) (hN : 1 ≤ N) :
    dim1m v = V := by
  obtain ⟨hl, hr⟩ := h
  cases v with
  | nil => simp at hl; omega
  | cons r rs =>
    show r.length = V
    exact hr r (by simp)

/-- Shape of a matrix product from the shapes of its factors. -/
theorem matmul2_rows2 {A B : Tensor2} {n m p : Nat} (hA : rows2 A n m)
    (hB : rows2 B m p) (hnm : n = 0 ∨ 1 ≤ m) :
    rows2 (matmul2 A B) n p := by
  obtain ⟨hAl, hAr⟩ := hA
  constructor
  · simp [matmul2, hAl]
  · intro r hr
    rcases List.mem_map.mp hr with ⟨ar, har, hEq⟩
    have hd : dim1m B = p := by
      rcases hnm with h0 | h1
      · exfalso
        rw [h0] at hAl
        rw [List.length_eq_zero] at hAl
        subst hAl
        simp at har
      · exact dim1m_of_rows2 hB h1
    rw [← hEq]
    simp [transposeN_length, hd]

/-- Length of a flattened list whose pieces share one length. -/
theorem flatten_length_const {l : List (List α)} {H v : Nat}
    (hl : l.length = H) (hv : ∀ x ∈ l, x.length = v) :
    l.flatten.length = H * v := by
  rw [List.length_flatten]
  have hrep : l.map List.length = List.replicate H v := by
    rw [List.eq_replicate_iff]
    refine ⟨by simp [hl], ?_⟩
    intro b hb
    rcases List.mem_map.mp hb with ⟨x, hx, hEq⟩
    rw [← hEq]
    exact hv x hx
  rw [hrep, List.sum_replicate, smul_eq_mul]

/-- Members of a `zipWith` come from aligned members of the inputs. -/
theorem exists_of_mem_zipWith {f : α → β → γ} {a : List α} {b : List β} {x : γ}
    (h : x ∈ List.zipWith f a b) :
    ∃ i, ∃ ha : i < a.length, ∃ hb : i < b.length, x = f a[i] b[i] := by
  rcases List.mem_iff_getElem.mp h with ⟨i, hi, hx⟩
  have hi2 := hi
  rw [List.length_zipWith] at hi2
  have ha : i < a.length := Nat.lt_of_lt_of_le hi2 (Nat.min_le_left _ _)
  have hb : i < b.length := Nat.lt_of_lt_of_le hi2 (Nat.min_le_right _ _)
  refine ⟨i, ha, hb, ?_⟩
  rw [← hx, List.getElem_zipWith]

/-- Rowwise mapping of a rank-4 tensor with a width-`F2` row function. -/
theorem cube4_map_rows {t : Tensor4} {B H N F : Nat} (f : Tensor1 → Tensor1) (F2 : Nat)
    (hf : ∀ r : Tensor1, r.length = F → (f r).length = F2)
    (ht : cube4 t B H N F) :
    cube4 (t.map (fun b => b.map (fun h => h.map f))) B H N F2 := by
  obtain ⟨hB, hbt⟩ := ht
  constructor
  · simp [hB]
  · intro b hb
    rcases List.mem_map.mp hb with ⟨b0, hb0, hEqb⟩
    obtain ⟨hH, hhd⟩ := hbt b0 hb0
    rw [← hEqb]
    constructor
    · simp [hH]
    · intro h hh2
      rcases List.mem_map.mp hh2 with ⟨h0, hh0, hEqh⟩
      obtain ⟨hN, hrw⟩ := hhd h0 hh0
      rw [← hEqh]
      constructor
      · simp [hN]
      · intro r hr
        rcases List.mem_map.mp hr with ⟨r0, hr0, hEqr⟩
        rw [← hEqr]
        exact hf r0 (hrw r0 hr0)

/-- Shape of the projected, normalized QKV tensor. -/
theorem mhaQKV_shape (c : Core) (memory : Tensor3) {B N W : Nat}
    (hs : cube3 memory B N W) (hq : LinOut c.qkv_projector c.total_qkv_size) :
    cube3 (mhaQKV c memory) B N c.total_qkv_size := by
  obtain ⟨hB, hm⟩ := hs
  constructor
  · simp [mhaQKV, hB]
  · intro m hm2
    unfold mhaQKV at hm2
    rcases List.mem_map.mp hm2 with ⟨m1, hm1, hEq1⟩
    rcases List.mem_map.mp hm1 with ⟨m0, hm0, hEq0⟩
    rw [← hEq1, ← hEq0]
    apply lnApply_rows
    obtain ⟨hN, _⟩ := hm m0 hm0
    constructor
    · simp [hN]
    · intro r hr
      rcases List.mem_map.mp hr with ⟨r0, _, hEqr⟩
      rw [← hEqr]
      exact linApply_length c.qkv_projector _ hq r0

/-- Shape of the per-head reshaped, transposed QKV tensor. -/
theorem mhaTranspose_shape (c : Core) (memory : Tensor3) {B N W : Nat}
    (hs : cube3 memory B N W) (hq : LinOut c.qkv_projector c.total_qkv_size)
    (hv : 1 ≤ c.qkv_size) :
    cube4 (mhaTranspose c memory) B c.num_heads N c.qkv_size := by
  obtain ⟨hB, hm⟩ := mhaQKV_shape c memory hs hq
  constructor
  · simp [mhaTranspose, hB]
  · intro bt hbt
    unfold mhaTranspose at hbt
    rcases List.mem_map.mp hbt with ⟨grid0, hg0, hEqg⟩
    rcases List.mem_map.mp hg0 with ⟨m0, hm0, hEqm⟩
    obtain ⟨hN0, hW0⟩ := hm m0 hm0
    rw [← hEqg, ← hEqm]
    have hgmem : ∀ g ∈ m0.map (chunkList c.qkv_size),
        g.length = c.num_heads ∧ ∀ ch ∈ g, ch.length = c.qkv_size := by
      intro g hg
      rcases List.mem_map.mp hg with ⟨r, hrm, hEqr⟩
      rw [← hEqr]
      refine chunkList_spec hv r ?_
      rw [hW0 r hrm]
      unfold Core.total_qkv_size
      exact Nat.mul_comm _ _
    constructor
    · rw [transposeN_length]
    · intro h hh2
      rcases transposeN_mem hh2 with ⟨j, hj, hEqh⟩
      rw [hEqh]
      constructor
      · simp [hN0]
      · intro r hr
        rcases List.mem_map.mp hr with ⟨g, hg, hEqr⟩
        obtain ⟨hgl, hch⟩ := hgmem g hg
        rw [← hEqr]
        exact hch _ (getD_mem (by rw [hgl]; exact hj))

/-- Shape of the dot-product stage: per-head `N × N` weights. -/
theorem mhaDot_shape (c : Core) {q k : Tensor4} {B H N : Nat}
    (hq : cube4 q B H N c.key_size) (hk : cube4 k B H N c.key_size)
    (h1 : 1 ≤ c.key_size) :
    cube4 (List.zipWith (fun qb kb => List.zipWith
      (fun qh kh => matmul2 qh (transposeN (0 : ℝ) c.key_size kh)) qb kb) q k)
      B H N N := by
  obtain ⟨hqB, hqb⟩ := hq
  obtain ⟨hkB, hkb⟩ := hk
  constructor
  · rw [List.length_zipWith, hqB, hkB, Nat.min_self]
  · intro b hb
    rcases exists_of_mem_zipWith hb with ⟨i, hia, hib, hEqb⟩
    obtain ⟨hqH, hqh⟩ := hqb q[i] (List.getElem_mem hia)
    obtain ⟨hkH, hkh⟩ := hkb k[i] (List.getElem_mem hib)
    rw [hEqb]
    constructor
    · rw [List.length_zipWith, hqH, hkH, Nat.min_self]
    · intro h hh2
      rcases exists_of_mem_zipWith hh2 with ⟨j, hja, hjb, hEqh⟩
      have hqj := hqh _ (List.getElem_mem hja)
      have hkj := hkh _ (List.getElem_mem hjb)
      rw [hEqh]
      refine matmul2_rows2 hqj ?_ (Or.inr h1)
      constructor
      · exact transposeN_length _ _ _
      · intro r hr
        rcases transposeN_mem hr with ⟨j2, hj2, hEqr⟩
        rw [hEqr]
        simp [hkj.1]

/-- Shape of the weighted-values stage: per-head `N × V` outputs. -/
theorem mhaOut_shape {w v : Tensor4} {B H N V : Nat}
    (hw : cube4 w B H N N) (hv : cube4 v B H N V) :
    cube4 (List.zipWith (fun wb vb => List.zipWith matmul2 wb vb) w v) B H N V := by
  obtain ⟨hwB, hwb⟩ := hw
  obtain ⟨hvB, hvb⟩ := hv
  constructor
  · rw [List.length_zipWith, hwB, hvB, Nat.min_self]
  · intro b hb
    rcases exists_of_mem_zipWith hb with ⟨i, hia, hib, hEqb⟩
    obtain ⟨hwH, hwh⟩ := hwb w[i] (List.getElem_mem hia)
    obtain ⟨hvH, hvh⟩ := hvb v[i] (List.getElem_mem hib)
    rw [hEqb]
    constructor
    · rw [List.length_zipWith, hwH, hvH, Nat.min_self]
    · intro h hh2
      rcases exists_of_mem_zipWith hh2 with ⟨j, hja, hjb, hEqh⟩
      have hwj := hwh _ (List.getElem_mem hja)
      have hvj := hvh _ (List.getElem_mem hjb)
      rw [hEqh]
      exact matmul2_rows2 hwj hvj (Nat.eq_zero_or_pos N)

/-- C6: `multihead_attention` preserves shape on the program's domain: a
`[B, mem_slots + 1, mem_size]` augmented-memory input (the only row count
the module's `qkv_layernorm`, built as
`nn.LayerNorm([mem_slots_plus_input, total_qkv_size])`, accepts) produces
an output of exactly the same shape (for a core whose QKV projector has
its constructed output width and whose head and key sizes are
positive). -/
theorem multihead_attention_shape (c : Core) (memory : Tensor3) (B : Nat)
    (hs : shape3b memory B c.mem_slots_plus_input c.mem_size = true)
    (hq : LinOut c.qkv_projector c.total_qkv_size)
    (hh : 1 ≤ c.head_size) (hk : 1 ≤ c.key_size) :
    shape3b (multihead_attention c memory) B c.mem_slots_plus_input c.mem_size = true := by
  rw [shape3b_iff] at hs ⊢
  have hqkv1 : 1 ≤ c.qkv_size := by
    unfold Core.qkv_size Core.value_size
    omega
  obtain ⟨hB, hmem⟩ := hs
  have ht := mhaTranspose_shape c memory ⟨hB, hmem⟩ hq hqkv1
  have hkey_le : c.key_size ≤ c.qkv_size := by
    unfold Core.qkv_size
    omega
  have hqs : cube4 (mhaQ c memory) B c.num_heads c.mem_slots_plus_input c.key_size := by
    unfold mhaQ
    exact cube4_map_rows _ _ (fun r hr => by rw [List.length_take, hr]; omega) ht
  have hscale : cube4 (scale4 (attScale c) (mhaQ c memory))
      B c.num_heads c.mem_slots_plus_input c.key_size := by
    unfold scale4 map3
    exact cube4_map_rows _ _ (fun r hr => by simp [hr]) hqs
  have hks : cube4 (mhaK c memory) B c.num_heads c.mem_slots_plus_input c.key_size := by
    unfold mhaK
    refine cube4_map_rows _ _ (fun r hr => ?_) ht
    rw [List.length_take, List.length_drop, hr]
    unfold Core.qkv_size Core.value_size at *
    omega
  have hvs : cube4 (mhaV c memory) B c.num_heads c.mem_slots_plus_input c.value_size := by
    unfold mhaV
    refine cube4_map_rows _ _ (fun r hr => ?_) ht
    rw [List.length_take, List.length_drop, hr]
    unfold Core.qkv_size at *
    omega
  have hdot : cube4 (mhaDot c memory)
      B c.num_heads c.mem_slots_plus_input c.mem_slots_plus_input := by
    unfold mhaDot
    exact mhaDot_shape c hscale hks hk
  have hwts : cube4 (mhaWeights c memory)
      B c.num_heads c.mem_slots_plus_input c.mem_slots_plus_input := by
    unfold mhaWeights
    exact cube4_map_rows _ _ (fun r hr => by simp [softmaxRow, hr]) hdot
  have hout : cube4 (mhaOut c memory) B c.num_heads c.mem_slots_plus_input c.value_size := by
    unfold mhaOut
    exact mhaOut_shape hwts hvs
  constructor
  · simp [multihead_attention, hout.1]
  · intro m hm2
    unfold multihead_attention at hm2
    rcases List.mem_map.mp hm2 with ⟨m1, hm1, hEq1⟩
    rcases List.mem_map.mp hm1 with ⟨b0, hb0, hEq0⟩
    obtain ⟨hH0, hhd0⟩ := hout.2 b0 hb0
    have hdim1 : dim1 memory = c.mem_slots_plus_input := by
      cases memory with
      | nil =>
        exfalso
        have hB0 : B = 0 := by simpa using hB.symm
        have h0 : mhaOut c [] = [] := by
          rw [← List.length_eq_zero, hout.1, hB0]
        rw [h0] at hb0
        simp at hb0
      | cons m0 ms =>
        show m0.length = c.mem_slots_plus_input
        exact (hmem m0 (by simp)).1
    rw [← hEq1, ← hEq0]
    constructor
    · simp [transposeN_length, hdim1]
    · intro r hr
      rcases List.mem_map.mp hr with ⟨row, hrow, hEqr⟩
      rcases transposeN_mem hrow with ⟨j, hj, hEqrow⟩
      rw [← hEqr, hEqrow]
      have hall : ∀ x ∈ b0.map (fun hd => hd.getD j []), x.length = c.value_size := by
        intro x hx
        rcases List.mem_map.mp hx with ⟨hd, hhd, hEqx⟩
        obtain ⟨hNl, hrows⟩ := hhd0 hd hhd
        rw [← hEqx]
        refine hrows _ (getD_mem ?_)
        rw [hNl, ← hdim1]
        exact hj
      rw [flatten_length_const
        (show (List.map (fun hd => hd.getD j []) b0).length = c.num_heads by simp [hH0])
        hall]
      unfold Core.mem_size Core.value_size
      exact Nat.mul_comm _ _

/-- Concrete core for the C6 witness. -/
noncomputable def coreW6 : Core where
  mem_slots := 1
  head_size := 1
  num_heads := 1
  input_size := 1
  num_blocks := 1
  gate_style := some "unit"
  attention_mlp_layers := 1
  key_size := 1
  forget_bias := 1
  input_bias := 0
  return_all_outputs := false
  qkv_projector := mkLinear 3 1 (fun _ _ => 0) (fun _ => 0)
  qkv_layernorm := mkLayerNorm 2 3
  attention_mlp := mkLinear 1 1 (fun _ _ => 0) (fun _ => 0)
  attended_memory_layernorm := mkLayerNorm 2 1
  attended_memory_layernorm2 := mkLayerNorm 2 1
  input_projector := mkLinear 1 1 (fun _ _ => 0) (fun _ => 0)
  input_gate_projector := mkLinear 2 1 (fun _ _ => 0) (fun _ => 0)
  memory_gate_projector := mkLinear 2 1 (fun _ _ => 0) (fun _ => 0)

/-- Concrete augmented memory (`N = mem_slots + 1 = 2`) for the C6
witness. -/
def memW6 : Tensor3 := [[[0], [1]]]

/-- Witness for C6: the theorem applied to a concrete core and a concrete
`[1, 2, 1]` augmented memory with `mem_slots + 1 = 2` rows. -/
theorem multihead_attention_shape_witness :
    (shape3b memW6 1 coreW6.mem_slots_plus_input coreW6.mem_size = true ∧
     LinOut coreW6.qkv_projector coreW6.total_qkv_size ∧
     1 ≤ coreW6.head_size ∧ 1 ≤ coreW6.key_size) ∧
    shape3b (multihead_attention coreW6 memW6) 1 coreW6.mem_slots_plus_input
      coreW6.mem_size = true :=
  ⟨⟨rfl, ⟨rfl, rfl⟩, by decide, by decide⟩,
    multihead_attention_shape coreW6 memW6 1 rfl ⟨rfl, rfl⟩ (by decide) (by decide)⟩

/-- C7 (amended): for every augmented memory of shape
`[B, mem_slots + 1, mem_size]` (the row count the module's layer norms
accept), the per-head key and value slices have widths `key_size` and
`head_size` respectively, the query scaling factor is `key_size ** -0.5`,
and `key_size` defaults to `head_size` when it is not supplied to the
constructor (in which case the key width equals `head_size`). -/
theorem qkv_split_widths :
    (∀ (c : Core) (memory : Tensor3) (B : Nat),
      shape3b memory B c.mem_slots_plus_input c.mem_size = true →
      LinOut c.qkv_projector c.total_qkv_size →
      1 ≤ c.head_size →
      (∀ b ∈ mhaK c memory, ∀ h ∈ b, ∀ r ∈ h, r.length = c.key_size) ∧
      (∀ b ∈ mhaV c memory, ∀ h ∈ b, ∀ r ∈ h, r.length = c.head_size) ∧
      attScale c = (c.key_size : ℝ) ^ (-(1 / 2 : ℝ))) ∧
    (∀ (ms hs is nh : Nat) (nb : Int) (fb ib : ℝ) (gs : Option String)
      (aml : Int) (rao : Bool) (w : InitW) (c2 : Core),
      mkCore ms hs is nh nb fb ib gs aml none rao w = .ok c2 →
      c2.key_size = c2.head_size) := by
  constructor
  · intro c memory B hs hq hh
    rw [shape3b_iff] at hs
    have hqkv1 : 1 ≤ c.qkv_size := by
      unfold Core.qkv_size Core.value_size
      omega
    have ht := mhaTranspose_shape c memory hs hq hqkv1
    have hks : cube4 (mhaK c memory) B c.num_heads c.mem_slots_plus_input c.key_size := by
      unfold mhaK
      refine cube4_map_rows _ _ (fun r hr => ?_) ht
      rw [List.length_take, List.length_drop, hr]
      unfold Core.qkv_size Core.value_size at *
      omega
    have hvs : cube4 (mhaV c memory) B c.num_heads c.mem_slots_plus_input c.value_size := by
      unfold mhaV
      refine cube4_map_rows _ _ (fun r hr => ?_) ht
      rw [List.length_take, List.length_drop, hr]
      unfold Core.qkv_size at *
      omega
    refine ⟨?_, ?_, rfl⟩
    · intro b hb h hh2 r hr
      exact ((hks.2 b hb).2 h hh2).2 r hr
    · intro b hb h hh2 r hr
      exact ((hvs.2 b hb).2 h hh2).2 r hr
  · intro ms hs is nh nb fb ib gs aml rao w c2 h
    unfold mkCore at h
    split_ifs at h <;> simp only [Except.ok.injEq] at h <;> subst h <;> rfl

/-- Concrete core with an explicitly supplied `key_size = 2` differing
from `head_size = 3`, the configuration on which the original C7 claim
fails. -/
noncomputable def coreW7 : Core where
  mem_slots := 1
  head_size := 3
  num_heads := 1
  input_size := 3
  num_blocks := 1
  gate_style := some "unit"
  attention_mlp_layers := 1
  key_size := 2
  forget_bias := 1
  input_bias := 0
  return_all_outputs := false
  qkv_projector := mkLinear 7 3 (fun _ _ => 0) (fun _ => 0)
  qkv_layernorm := mkLayerNorm 2 7
  attention_mlp := mkLinear 3 3 (fun _ _ => 0) (fun _ => 0)
  attended_memory_layernorm := mkLayerNorm 2 3
  attended_memory_layernorm2 := mkLayerNorm 2 3
  input_projector := mkLinear 3 3 (fun _ _ => 0) (fun _ => 0)
  input_gate_projector := mkLinear 6 3 (fun _ _ => 0) (fun _ => 0)
  memory_gate_projector := mkLinear 6 3 (fun _ _ => 0) (fun _ => 0)

/-- Concrete `[1, mem_slots + 1, mem_size] = [1, 2, 3]` augmented memory
fed to `coreW7`: the shape the module's layer norms accept, so the real
code reaches the QKV split on this input. -/
def memW7 : Tensor3 := [[[0, 0, 0], [0, 0, 0]]]

/-- A nonempty list contains its default-headed head. -/
theorem headD_mem {l : List α} {d : α} (h : l ≠ []) : l.headD d ∈ l := by
  cases l with
  | nil => exact absurd rfl h
  | cons a as => simp

/-- The first per-head key row produced at the counterexample input. -/
noncomputable def kRow7 : Tensor1 :=
  (((mhaK coreW7 memW7).headD []).headD []).headD []

/-- Counterexample to C7 as stated: with `key_size = 2` supplied
explicitly and `head_size = 3`, on a conforming `[1, mem_slots + 1,
mem_size]` memory the per-head key slice has width 2, not `head_size`. -/
theorem mha_key_width_claim_false :
    ¬ (∀ b ∈ mhaK coreW7 memW7, ∀ h ∈ b, ∀ r ∈ h, r.length = coreW7.head_size) := by
  intro hcl
  have hne1 : mhaK coreW7 memW7 ≠ [] := by
    intro hx
    have hl : (mhaK coreW7 memW7).length = 1 := rfl
    rw [hx] at hl
    simp at hl
  have hne2 : (mhaK coreW7 memW7).headD [] ≠ [] := by
    intro hx
    have hl : ((mhaK coreW7 memW7).headD []).length = 1 := rfl
    rw [hx] at hl
    simp at hl
  have hne3 : ((mhaK coreW7 memW7).headD []).headD [] ≠ [] := by
    intro hx
    have hl : (((mhaK coreW7 memW7).headD []).headD []).length = 2 := rfl
    rw [hx] at hl
    simp at hl
  have hlen : kRow7.length = coreW7.head_size :=
    hcl _ (headD_mem hne1) _ (headD_mem hne2) _ (headD_mem hne3)
  have h2 : kRow7.length = 2 := rfl
  rw [h2] at hlen
  exact absurd hlen (by decide)

/-- The zero-initialized weight bundle used by the C7 witness. -/
noncomputable def wZero : InitW where
  qkvW := fun _ _ => 0
  qkvB := fun _ => 0
  mlpW := fun _ _ => 0
  mlpB := fun _ => 0
  inW := fun _ _ => 0
  inB := fun _ => 0
  igW := fun _ _ => 0
  igB := fun _ => 0
  mgW := fun _ _ => 0
  mgB := fun _ => 0

/-- The core built by the constructor with `key_size` left unsupplied. -/
noncomputable def coreMkW7 : Core :=
  (mkCore 1 1 1 1 1 1 0 (some "unit") 1 none false wZero).toOption.getD coreW7

/-- Witness for the amended C7: slice widths at the concrete
`key_size = 2, head_size = 3` core on a conforming `[1, 2, 3]` augmented
memory, and the default `key_size = head_size` for a concretely
constructed core. -/
theorem qkv_split_widths_witness :
    ((∀ b ∈ mhaK coreW7 memW7, ∀ h ∈ b, ∀ r ∈ h, r.length = coreW7.key_size) ∧
     (∀ b ∈ mhaV coreW7 memW7, ∀ h ∈ b, ∀ r ∈ h, r.length = coreW7.head_size) ∧
     attScale coreW7 = (coreW7.key_size : ℝ) ^ (-(1 / 2 : ℝ))) ∧
    (mkCore 1 1 1 1 1 1 0 (some "unit") 1 none false wZero = .ok coreMkW7 ∧
     coreMkW7.key_size = coreMkW7.head_size) :=
  ⟨qkv_split_widths.1 coreW7 memW7 1 rfl ⟨rfl, rfl⟩ (by decide),
   ⟨rfl, qkv_split_widths.2 1 1 1 1 1 1 0 (some "unit") 1 false wZero coreMkW7 rfl⟩⟩

end RMC
